import Mathlib

set_option maxRecDepth 4000

/- Verification of the tangkal pre-install security scanner.

   The definitions below are shallow embeddings of the TypeScript sources:
   - src/analyzers/static-analysis.ts  (content analyzer, `Finding` model)
   - src/analyzers/network.ts          (vulnerability batch audit, reputation)
   - src/analyzers/dependencies.ts     (typosquatting detector)
   - src/utils/lockfile.ts             (dependency extraction, `deduplicate`)
   - src/utils/entropy.ts              (`hasLongLines`)
   - src/scanner.ts                    (orchestration)
   - src/config.ts                     (POPULAR_PACKAGES table)

   JavaScript strings are modelled through their character sequences
   (`String.data`); the JS operations used by the scanner (split, includes,
   endsWith, startsWith, toLowerCase, lexicographic `<`) are defined here
   directly on `List Char` so that every definition evaluates. -/

/-- JS code-unit lexicographic comparison (`a < b` on strings), on char lists.
For the ASCII data handled by the scanner, code units and code points agree. -/
def jsLtChars : List Char → List Char → Bool
  | [], [] => false
  | [], _ :: _ => true
  | _ :: _, [] => false
  | a :: as, b :: bs => if a < b then true else if b < a then false else jsLtChars as bs

/-- JS string comparison `s < t`. -/
def jsLt (s t : String) : Bool := jsLtChars s.data t.data

/-- ASCII lower-casing of one character, as `String.prototype.toLowerCase`
acts on the ASCII range (all data relevant to the scanner is ASCII). -/
def asciiLower (c : Char) : Char :=
  if 'A' ≤ c && c ≤ 'Z' then Char.ofNat (c.toNat + 32) else c

/-- JS `s.toLowerCase()`. -/
def jsToLower (s : String) : String := ⟨s.data.map asciiLower⟩

/-- Helper for substring search: does `pat` occur in the given char list? -/
def hasSubAux (pat : List Char) : List Char → Bool
  | [] => pat.isEmpty
  | c :: rest => pat.isPrefixOf (c :: rest) || hasSubAux pat rest

/-- JS `s.includes(pat)`. -/
def strIncludes (s pat : String) : Bool := hasSubAux pat.data s.data

/-- JS `s.endsWith(suf)`. -/
def jsEndsWith (s suf : String) : Bool := suf.data.isSuffixOf s.data

/-- JS `s.startsWith(pre)`. -/
def jsStartsWith (s pre : String) : Bool := pre.data.isPrefixOf s.data

/-- The `Finding` record of src/analyzers/static-analysis.ts (lines 10-24).
The TypeScript interface declares `severity` as the union
`'critical' | 'high' | 'medium' | 'low'`, but at runtime a severity is just a
string (the advisory-derived assignment in network.ts line 176 is unchecked),
so the embedding uses `String` and states the enum as a predicate. -/
structure Finding where
  type : String
  name : Option String
  file : String
  line : Option Nat
  severity : String
  content : Option String
  description : String
  version : Option String
  id : Option String
  summary : Option String
  url : Option String
  fixedIn : Option String
  references : List String
deriving DecidableEq

/-- Constructor for findings that use only the seven common fields (the
optional vulnerability fields are absent, i.e. `undefined` in the source). -/
def baseFinding (type : String) (name : Option String) (file : String)
    (line : Option Nat) (severity : String) (content : Option String)
    (description : String) : Finding :=
  ⟨type, name, file, line, severity, content, description,
    none, none, none, none, none, []⟩

/-- The four-value severity enum of the `Finding` interface. -/
def severityEnumVals : List String := ["critical", "high", "medium", "low"]

/-- The `Dependency` record of src/utils/lockfile.ts (lines 6-9). -/
structure Dependency where
  name : String
  version : String
deriving DecidableEq

/- ===================== C7 : deduplication ====================== -/

/-- The `name@version` map key used by `deduplicate`
(src/utils/lockfile.ts line 154). -/
def dedupKey (d : Dependency) : String := d.name ++ "@" ++ d.version

/-- One `Map.set` step of a JS `Map` represented as an association list in key
insertion order: an existing key keeps its position and gets the new value,
a fresh key is appended. -/
def mapSet (m : List (String × Dependency)) (k : String) (d : Dependency) :
    List (String × Dependency) :=
  if m.any (fun e => e.1 = k) then m.map (fun e => if e.1 = k then (k, d) else e)
  else m ++ [(k, d)]

/-- `deduplicate` of src/utils/lockfile.ts (lines 152-156): insert every
dependency under its `name@version` key, then return the map values. -/
def deduplicate (deps : List Dependency) : List Dependency :=
  (deps.foldl (fun m d => mapSet m (dedupKey d) d) []).map Prod.snd

/-- Invariant of the accumulated map: keys are the keys of their values, and
keys are unique. -/
def DedupInv (m : List (String × Dependency)) : Prop :=
  (∀ e ∈ m, e.1 = dedupKey e.2) ∧ (m.map Prod.fst).Nodup

theorem mapSet_inv (m : List (String × Dependency)) (d : Dependency)
    (h : DedupInv m) : DedupInv (mapSet m (dedupKey d) d) := by
  obtain ⟨h1, h2⟩ := h
  unfold mapSet
  by_cases hc : m.any (fun e => e.1 = dedupKey d)
  · rw [if_pos hc]
    refine ⟨?_, ?_⟩
    · intro e he
      obtain ⟨e', he', heq⟩ := List.mem_map.mp he
      by_cases h' : e'.1 = dedupKey d
      · rw [if_pos h'] at heq; subst heq; rfl
      · rw [if_neg h'] at heq; subst heq; exact h1 e' he'
    · have hkeys : (m.map (fun e => if e.1 = dedupKey d then (dedupKey d, d) else e)).map Prod.fst
          = m.map Prod.fst := by
        rw [List.map_map]
        apply List.map_congr_left
        intro e _
        by_cases h' : e.1 = dedupKey d
        · simp [h']
        · simp [h']
      rw [hkeys]; exact h2
  · rw [if_neg hc]
    refine ⟨?_, ?_⟩
    · intro e he
      rcases List.mem_append.mp he with h' | h'
      · exact h1 e h'
      · rw [List.mem_singleton] at h'; subst h'; rfl
    · rw [List.map_append]
      rw [List.nodup_append]
      refine ⟨h2, by simp, ?_⟩
      intro a ha hb
      simp only [List.map_cons, List.map_nil, List.mem_singleton] at hb
      subst hb
      obtain ⟨e, he, hfe⟩ := List.mem_map.mp ha
      rw [List.any_eq_true] at hc
      exact hc ⟨e, he, by simp [hfe]⟩

theorem dedup_foldl_inv (deps : List Dependency) :
    ∀ m, DedupInv m → DedupInv (deps.foldl (fun m d => mapSet m (dedupKey d) d) m) := by
  induction deps with
  | nil => intro m h; exact h
  | cons d rest ih => intro m h; exact ih _ (mapSet_inv m d h)

theorem mapSet_forall (m : List (String × Dependency)) (k : String) (d : Dependency)
    (P : Dependency → Prop) (hm : ∀ e ∈ m, P e.2) (hd : P d) :
    ∀ e ∈ mapSet m k d, P e.2 := by
  intro e he
  unfold mapSet at he
  by_cases hc : m.any (fun e => e.1 = k)
  · rw [if_pos hc] at he
    obtain ⟨e', he', heq⟩ := List.mem_map.mp he
    by_cases h' : e'.1 = k
    · rw [if_pos h'] at heq; subst heq; exact hd
    · rw [if_neg h'] at heq; subst heq; exact hm e' he'
  · rw [if_neg hc] at he
    rcases List.mem_append.mp he with h' | h'
    · exact hm e h'
    · rw [List.mem_singleton] at h'; subst h'; exact hd

theorem dedup_foldl_mem (deps0 : List Dependency) :
    ∀ (deps : List Dependency), (∀ d ∈ deps, d ∈ deps0) →
    ∀ m, (∀ e ∈ m, e.2 ∈ deps0) →
    ∀ e ∈ deps.foldl (fun m d => mapSet m (dedupKey d) d) m, e.2 ∈ deps0 := by
  intro deps
  induction deps with
  | nil => intro _ m hm e he; exact hm e he
  | cons d rest ih =>
      intro hsub m hm e he
      exact ih (fun x hx => hsub x (List.mem_cons_of_mem _ hx))
        (mapSet m (dedupKey d) d)
        (mapSet_forall m (dedupKey d) d _ hm (hsub d (List.mem_cons_self _ _)))
        e he

/-- C7: for every input dependency list, including one with repeated
`(name, version)` pairs, the list returned by `deduplicate` (used by every
branch of the dependency extractor `parsePackageLock`) contains each distinct
`(name, version)` pair at most once — it has no duplicate entries — and every
returned entry is drawn from the input list. -/
theorem claimC7 (deps : List Dependency) :
    (deduplicate deps).Nodup ∧ deduplicate deps ⊆ deps := by
  constructor
  · have hinv := dedup_foldl_inv deps [] ⟨by simp, by simp⟩
    obtain ⟨h1, h2⟩ := hinv
    have hkeys :
        (deps.foldl (fun m d => mapSet m (dedupKey d) d) []).map Prod.fst
          = ((deps.foldl (fun m d => mapSet m (dedupKey d) d) []).map Prod.snd).map dedupKey := by
      rw [List.map_map]
      exact List.map_congr_left (fun e he => h1 e he)
    rw [hkeys] at h2
    exact h2.of_map _
  · intro x hx
    obtain ⟨e, he, rfl⟩ := List.mem_map.mp hx
    exact dedup_foldl_mem deps deps (fun d hd => hd) [] (by simp) e he

/-- C7 witness: the deduplicated form of a concrete list with a repeated
pair is duplicate-free and drawn from the input. -/
theorem claimC7_witness :
    (deduplicate [⟨"a", "1"⟩, ⟨"a", "1"⟩, ⟨"b", "2"⟩]).Nodup ∧
      deduplicate [⟨"a", "1"⟩, ⟨"a", "1"⟩, ⟨"b", "2"⟩] ⊆ [⟨"a", "1"⟩, ⟨"a", "1"⟩, ⟨"b", "2"⟩] :=
  claimC7 [⟨"a", "1"⟩, ⟨"a", "1"⟩, ⟨"b", "2"⟩]

/- ===================== C6 : typosquatting ====================== -/

/-- The static popular-package table of src/config.ts. -/
def POPULAR_PACKAGES : List String :=
  ["react", "react-dom", "next", "vue", "express", "lodash", "commander",
   "chalk", "axios", "tslib", "typescript", "eslint", "jest", "moment",
   "date-fns", "uuid", "classnames", "prop-types", "webpack", "babel-core",
   "body-parser", "cookie-parser", "dotenv", "mongoose", "nodemon"]

/-- Classical Levenshtein distance (unit-cost insertion, deletion,
substitution), which is what the `fast-levenshtein` dependency computes.
The extra fuel argument only makes the textbook recurrence structurally
recursive; it is always sufficient (each step shortens the combined length). -/
def levAux : Nat → List Char → List Char → Nat
  | _, [], ys => ys.length
  | _, x :: xs, [] => (x :: xs).length
  | 0, _, _ => 0
  | fuel + 1, x :: xs, y :: ys =>
      if x = y then levAux fuel xs ys
      else 1 + min (levAux fuel xs ys) (min (levAux fuel (x :: xs) ys) (levAux fuel xs (y :: ys)))

/-- `levenshtein.get(a, b)` of src/analyzers/dependencies.ts line 20. -/
def levenshteinGet (s t : String) : Nat := levAux (s.data.length + t.data.length) s.data t.data

/-- Flagging threshold of src/analyzers/dependencies.ts line 23:
`popular.length < 5 ? 1 : 2`. -/
def typoThreshold (popular : String) : Nat := if popular.length < 5 then 1 else 2

/-- The finding pushed by `checkTyposquatting`
(src/analyzers/dependencies.ts lines 26-33). -/
def typoFinding (depName popular : String) : Finding :=
  baseFinding "Typosquatting" (some depName) "package.json" none "high" none
    ("Package \x27" ++ depName ++ "\x27 looks very similar to popular package \x27"
      ++ popular ++ "\x27.")

/-- Body of the inner loop of `checkTyposquatting` for one (declared, popular)
pair: skip exact matches, flag when the distance is within the threshold. -/
def typoHit (depName popular : String) : Option Finding :=
  if depName = popular then none
  else if levenshteinGet depName popular ≤ typoThreshold popular then
    some (typoFinding depName popular)
  else none

/-- `checkTyposquatting` of src/analyzers/dependencies.ts (lines 9-37), taking
the declared dependency names (the keys of the merged `dependencies` and
`devDependencies` objects). -/
def checkTyposquatting (depNames : List String) : List Finding :=
  depNames.flatMap (fun depName => POPULAR_PACKAGES.filterMap (typoHit depName))

theorem typoFinding_inj (d p d' p' : String) (h : typoFinding d p = typoFinding d' p') :
    d = d' ∧ p = p' := by
  have hd : d = d' := Option.some.inj (congrArg Finding.name h)
  subst hd
  refine ⟨rfl, ?_⟩
  have hdesc := congrArg Finding.description h
  simp only [typoFinding, baseFinding] at hdesc
  have hdata := congrArg String.data hdesc
  simp only [String.data_append] at hdata
  have h1 := List.append_cancel_right hdata
  have h2 := List.append_cancel_left h1
  cases p; cases p'
  exact congrArg String.mk h2

theorem typoHit_option_inj (dn : String) (p1 p2 : String) (f : Finding)
    (h1 : typoHit dn p1 = some f) (h2 : typoHit dn p2 = some f) : p1 = p2 := by
  unfold typoHit at h1 h2
  by_cases e1 : dn = p1
  · rw [if_pos e1] at h1; exact absurd h1 (by simp)
  rw [if_neg e1] at h1
  by_cases l1 : levenshteinGet dn p1 ≤ typoThreshold p1
  swap
  · rw [if_neg l1] at h1; exact absurd h1 (by simp)
  rw [if_pos l1] at h1
  by_cases e2 : dn = p2
  · rw [if_pos e2] at h2; exact absurd h2 (by simp)
  rw [if_neg e2] at h2
  by_cases l2 : levenshteinGet dn p2 ≤ typoThreshold p2
  swap
  · rw [if_neg l2] at h2; exact absurd h2 (by simp)
  rw [if_pos l2] at h2
  have := (Option.some.inj h1).trans (Option.some.inj h2).symm
  exact (typoFinding_inj dn p1 dn p2 this).2

theorem popular_nodup : POPULAR_PACKAGES.Nodup := by decide

theorem typo_inner_count (dn d p : String) :
    (POPULAR_PACKAGES.filterMap (typoHit dn)).count (typoFinding d p)
      = if dn = d ∧ (p ∈ POPULAR_PACKAGES ∧ d ≠ p ∧ levenshteinGet d p ≤ typoThreshold p)
        then 1 else 0 := by
  by_cases hcond : dn = d ∧ (p ∈ POPULAR_PACKAGES ∧ d ≠ p ∧ levenshteinGet d p ≤ typoThreshold p)
  · rw [if_pos hcond]
    obtain ⟨hdn, hp, hne, hle⟩ := hcond
    subst hdn
    apply List.count_eq_one_of_mem
    · exact popular_nodup.filterMap (fun a b c hca hcb =>
        typoHit_option_inj dn a b c hca hcb)
    · apply List.mem_filterMap.mpr
      refine ⟨p, hp, ?_⟩
      rw [typoHit, if_neg hne, if_pos hle]
  · rw [if_neg hcond]
    apply List.count_eq_zero_of_not_mem
    intro hmem
    obtain ⟨p', hp', hhit⟩ := List.mem_filterMap.mp hmem
    unfold typoHit at hhit
    by_cases e' : dn = p'
    · rw [if_pos e'] at hhit; exact absurd hhit (by simp)
    rw [if_neg e'] at hhit
    by_cases l' : levenshteinGet dn p' ≤ typoThreshold p'
    swap
    · rw [if_neg l'] at hhit; exact absurd hhit (by simp)
    rw [if_pos l'] at hhit
    obtain ⟨hd, hp⟩ := typoFinding_inj dn p' d p (Option.some.inj hhit)
    subst hd; subst hp
    exact hcond ⟨rfl, hp', e', l'⟩

/-- C6: for every declared dependency name `d` and every popularity-list entry
`p`, `checkTyposquatting` emits one high-severity typosquat finding for the
pair exactly when the two names differ and their Levenshtein distance is at
most 1 for popular names shorter than 5 characters and at most 2 otherwise;
identical names are never flagged. (Stated as an exact count: one finding per
occurrence of `d` among the declared names when the flag condition holds,
none otherwise.) -/
theorem claimC6 (depNames : List String) (d p : String) :
    (checkTyposquatting depNames).count (typoFinding d p)
      = depNames.count d *
          (if p ∈ POPULAR_PACKAGES ∧ d ≠ p ∧ levenshteinGet d p ≤ typoThreshold p
           then 1 else 0) := by
  induction depNames with
  | nil => simp [checkTyposquatting]
  | cons dn rest ih =>
      have hstep : checkTyposquatting (dn :: rest)
          = POPULAR_PACKAGES.filterMap (typoHit dn) ++ checkTyposquatting rest := by
        simp [checkTyposquatting]
      rw [hstep, List.count_append, ih, typo_inner_count, List.count_cons]
      have hif : (if dn = d ∧ (p ∈ POPULAR_PACKAGES ∧ d ≠ p ∧ levenshteinGet d p ≤ typoThreshold p)
            then (1 : Nat) else 0)
          = (if (dn == d) = true then 1 else 0) *
            (if p ∈ POPULAR_PACKAGES ∧ d ≠ p ∧ levenshteinGet d p ≤ typoThreshold p
             then 1 else 0) := by
        by_cases hdn : dn = d
        · rw [if_pos (show (dn == d) = true from beq_iff_eq.mpr hdn), Nat.one_mul]
          by_cases hC : p ∈ POPULAR_PACKAGES ∧ d ≠ p ∧ levenshteinGet d p ≤ typoThreshold p
          · rw [if_pos ⟨hdn, hC⟩, if_pos hC]
          · rw [if_neg (fun hh => hC hh.2), if_neg hC]
        · rw [if_neg (fun hh => hdn hh.1),
            if_neg (show ¬ (dn == d) = true by simp [hdn]), Nat.zero_mul]
      rw [hif]
      ring

/-- C6 witness: `vuee` is flagged against the popular package `vue`
(distance 1, threshold 1 since `vue` is shorter than 5 characters). -/
theorem claimC6_witness :
    (checkTyposquatting ["vuee"]).count (typoFinding "vuee" "vue") = 1 := by
  rw [claimC6]
  decide

/- ===================== C4 : long-line heuristic ====================== -/

/-- JS `text.split('\n')` on the character sequence (used by `hasLongLines`,
src/utils/entropy.ts line 18): split at every newline, keeping empty pieces. -/
def splitLinesAux (cur : List Char) : List Char → List (List Char)
  | [] => [cur.reverse]
  | c :: rest =>
      if c = '\n' then cur.reverse :: splitLinesAux [] rest
      else splitLinesAux (c :: cur) rest

/-- JS `text.split('\n')`. -/
def splitLines (s : String) : List (List Char) := splitLinesAux [] s.data

/-- Loop of `hasLongLines` (src/utils/entropy.ts lines 19-24): the first line
longer than 1000 characters is reported with its 1-based index and length. -/
def hasLongLinesAux : Nat → List (List Char) → Option (Nat × Nat)
  | _, [] => none
  | i, l :: ls =>
      if 1000 < l.length then some (i + 1, l.length) else hasLongLinesAux (i + 1) ls

/-- `hasLongLines` of src/utils/entropy.ts (lines 17-26), with its default
threshold 1000 (every call site uses the default). -/
def hasLongLines (text : String) : Option (Nat × Nat) :=
  hasLongLinesAux 0 (splitLines text)

/-- The "Massive Line Length" finding pushed by `analyzeContent`
(src/analyzers/static-analysis.ts lines 82-91 and 253-263; the two sites
differ only in the description text, passed here as an argument). -/
def massiveLineFinding (file : String) (li len : Nat) (description : String) : Finding :=
  baseFinding "Heuristic" (some "Massive Line Length") file (some li) "high"
    (some ("Line length: " ++ toString len ++ " chars")) description

/-- The "High Entropy" finding (src/analyzers/static-analysis.ts lines 266-275). -/
def highEntropyFinding (file : String) : Finding :=
  baseFinding "Heuristic" (some "High Entropy") file (some 0) "medium"
    (some "File content appears random/encrypted") "Shannon entropy is abnormally high."

/-- `analyzeContent` of src/analyzers/static-analysis.ts (lines 72-279).
Two aspects that a pure embedding cannot execute are passed as arguments,
placed exactly where they influence the control flow: `ast` is the list of
findings pushed by the babel syntax-tree traversal of lines 96-249 (empty
when parsing fails, since the enclosing `try` swallows the error), and `obf`
is the boolean value of `isObfuscated(content)` (a floating-point Shannon
entropy comparison, line 266). Every finding the traversal pushes carries a
name other than "Massive Line Length" (lines 110-247), which is the only
fact about `ast` the theorems below assume. -/
def analyzeContent (ast : List Finding) (obf : Bool) (content file : String) : List Finding :=
  if jsEndsWith file ".json" then []
  else if 1024 * 1024 < content.length then
    match hasLongLines content with
    | some (li, len) =>
        [massiveLineFinding file li len
          "Extremely long line detected (File too large for AST)."]
    | none => []
  else
    ast
    ++ (match hasLongLines content with
        | some (li, len) =>
            [massiveLineFinding file li len
              "Extremely long line detected. Often indicates minified malware or packed code."]
        | none => [])
    ++ (if !jsEndsWith file ".json" && obf then [highEntropyFinding file] else [])

theorem hasLongLinesAux_none (ls : List (List Char)) :
    ∀ i, hasLongLinesAux i ls = none ↔ ∀ l ∈ ls, l.length ≤ 1000 := by
  induction ls with
  | nil => intro i; simp [hasLongLinesAux]
  | cons l ls ih =>
      intro i
      by_cases h : 1000 < l.length
      · rw [hasLongLinesAux, if_pos h]
        constructor
        · intro hc; exact absurd hc (by simp)
        · intro hall; exact absurd (hall l (List.mem_cons_self _ _)) (by omega)
      · rw [hasLongLinesAux, if_neg h, ih (i + 1)]
        constructor
        · intro hall l' hl'
          rcases List.mem_cons.mp hl' with rfl | hm
          · omega
          · exact hall l' hm
        · intro hall l' hl'; exact hall l' (List.mem_cons_of_mem _ hl')

theorem hasLongLinesAux_some_mem (ls : List (List Char)) :
    ∀ i li len, hasLongLinesAux i ls = some (li, len) →
      1000 < len ∧ ∃ l ∈ ls, l.length = len := by
  induction ls with
  | nil => intro i li len h; exact absurd h (by simp [hasLongLinesAux])
  | cons l ls ih =>
      intro i li len h
      rw [hasLongLinesAux] at h
      by_cases hl : 1000 < l.length
      · rw [if_pos hl] at h
        have hp := Option.some.inj h
        have hlen : l.length = len := congrArg Prod.snd hp
        exact ⟨by omega, l, List.mem_cons_self _ _, hlen⟩
      · rw [if_neg hl] at h
        obtain ⟨h1, x, hx, hxl⟩ := ih (i + 1) li len h
        exact ⟨h1, x, List.mem_cons_of_mem _ hx, hxl⟩

theorem hasLongLines_some_of_exists (content : String)
    (h : ∃ l ∈ splitLines content, 1000 < l.length) :
    ∃ li len, hasLongLines content = some (li, len) := by
  rcases h with ⟨l, hl, hlen⟩
  cases hh : hasLongLines content with
  | none =>
      rw [hasLongLines] at hh
      have := (hasLongLinesAux_none _ 0).mp hh l hl
      omega
  | some v =>
      obtain ⟨a, b⟩ := v
      exact ⟨a, b, rfl⟩

/-- C4 amended: for every non-JSON input file whose text has a line longer
than 1000 characters, `analyzeContent` produces exactly one high-severity
"Massive Line Length" finding, and that finding reports the character count
of the first offending line (the count reported by `hasLongLines`). JSON
files are excluded: `analyzeContent` returns no findings at all for them
(see the counterexample). -/
theorem claimC4_amended (ast : List Finding) (obf : Bool) (content file : String)
    (hAst : ∀ f ∈ ast, f.name ≠ some "Massive Line Length")
    (hJson : jsEndsWith file ".json" = false)
    (hLong : ∃ l ∈ splitLines content, 1000 < l.length) :
    (analyzeContent ast obf content file).countP
        (fun f => f.name == some "Massive Line Length") = 1
    ∧ ∃ li len, hasLongLines content = some (li, len) ∧ 1000 < len
        ∧ (∃ l ∈ splitLines content, l.length = len)
        ∧ ∃ f ∈ analyzeContent ast obf content file,
            f.name = some "Massive Line Length" ∧ f.severity = "high"
            ∧ f.content = some ("Line length: " ++ toString len ++ " chars") := by
  obtain ⟨li, len, hsome⟩ := hasLongLines_some_of_exists content hLong
  obtain ⟨hlen, hexlen⟩ := hasLongLinesAux_some_mem _ 0 li len hsome
  have hAst0 : ast.countP (fun f => f.name == some "Massive Line Length") = 0 := by
    rw [List.countP_eq_zero]
    intro f hf
    simpa using hAst f hf
  unfold analyzeContent
  rw [hJson]
  simp only [Bool.false_eq_true, if_false, Bool.not_false, Bool.true_and]
  by_cases hbig : 1024 * 1024 < content.length
  · rw [if_pos hbig, hsome]
    refine ⟨?_, li, len, rfl, hlen, hexlen, ?_⟩
    · rw [List.countP_singleton]
      simp [massiveLineFinding, baseFinding]
    · exact ⟨massiveLineFinding file li len
          "Extremely long line detected (File too large for AST).",
        List.mem_singleton.mpr rfl, rfl, rfl, rfl⟩
  · rw [if_neg hbig, hsome]
    refine ⟨?_, li, len, rfl, hlen, hexlen, ?_⟩
    · rw [List.countP_append, List.countP_append, hAst0]
      have h2 : [massiveLineFinding file li len
          "Extremely long line detected. Often indicates minified malware or packed code."].countP
          (fun f => f.name == some "Massive Line Length") = 1 := by
        rw [List.countP_singleton]
        simp [massiveLineFinding, baseFinding]
      have h3 : (if obf = true then [highEntropyFinding file] else []).countP
          (fun f => f.name == some "Massive Line Length") = 0 := by
        by_cases hobf : obf = true
        · rw [if_pos hobf]; rfl
        · rw [if_neg hobf]; rfl
      rw [h2, h3]
    · refine ⟨massiveLineFinding file li len
          "Extremely long line detected. Often indicates minified malware or packed code.",
        ?_, rfl, rfl, rfl⟩
      exact List.mem_append.mpr (Or.inl (List.mem_append.mpr (Or.inr (List.mem_singleton.mpr rfl))))

/-- One line of 2000 repeated `a` characters (the spec's own test vector). -/
def aRep2000 : String := ⟨List.replicate 2000 'a'⟩

theorem splitLinesAux_replicate_a (n : Nat) (cur : List Char) :
    splitLinesAux cur (List.replicate n 'a') = [cur.reverse ++ List.replicate n 'a'] := by
  induction n generalizing cur with
  | zero => simp only [List.replicate, splitLinesAux, List.append_nil]
  | succ k ih =>
      rw [List.replicate_succ]
      simp only [splitLinesAux]
      rw [if_neg (by decide)]
      rw [ih ('a' :: cur)]
      rw [List.reverse_cons, List.append_assoc, List.singleton_append, ← List.replicate_succ]

theorem splitLines_aRep2000 : splitLines aRep2000 = [List.replicate 2000 'a'] := by
  show splitLinesAux [] (List.replicate 2000 'a') = _
  rw [splitLinesAux_replicate_a, List.reverse_nil, List.nil_append]

theorem aRep2000_long : ∃ l ∈ splitLines aRep2000, 1000 < l.length := by
  rw [splitLines_aRep2000]
  exact ⟨List.replicate 2000 'a', List.mem_singleton.mpr rfl,
    by rw [List.length_replicate]; norm_num⟩

/-- C4 counterexample: the claim quantifies over *every* input file, but a
file named with a `.json` extension whose single line has 2000 characters
produces no "Massive Line Length" finding at all — `analyzeContent` returns
`[]` for JSON files before any heuristic runs. -/
theorem claimC4_counterexample :
    (∃ l ∈ splitLines aRep2000, 1000 < l.length)
    ∧ (analyzeContent [] false aRep2000 "payload.json").countP
        (fun f => f.name == some "Massive Line Length") = 0 := by
  refine ⟨aRep2000_long, ?_⟩
  have hnil : analyzeContent [] false aRep2000 "payload.json" = [] := by
    unfold analyzeContent
    rw [show jsEndsWith "payload.json" ".json" = true from by decide]
    simp
  rw [hnil]
  rfl

/-- C4 witness: a non-JSON file of one line of 2000 repeated `a` characters
yields exactly one high-severity "Massive Line Length" finding reporting
length 2000 (via the amended theorem instantiated at that file). -/
theorem claimC4_amended_witness :
    (analyzeContent [] false aRep2000 "payload.js").countP
        (fun f => f.name == some "Massive Line Length") = 1
    ∧ ∃ li len, hasLongLines aRep2000 = some (li, len) ∧ 1000 < len
        ∧ (∃ l ∈ splitLines aRep2000, l.length = len)
        ∧ ∃ f ∈ analyzeContent [] false aRep2000 "payload.js",
            f.name = some "Massive Line Length" ∧ f.severity = "high"
            ∧ f.content = some ("Line length: " ++ toString len ++ " chars") :=
  claimC4_amended [] false aRep2000 "payload.js"
    (by simp)
    (by decide)
    aRep2000_long

/- ===================== C5 : reputation check ====================== -/

/-- Outcome of one axios call: a value, or an error carrying the HTTP
response status when a response was received (`none` models a timeout or
transport failure without a response; `error.response.status === 404` is the
probe of network.ts line 85). -/
inductive FetchResult (α : Type) where
  | ok (val : α)
  | err (responseStatus : Option Nat)
deriving DecidableEq

/-- The registry metadata field `meta.time.created` read by `checkReputation`
(network.ts line 50), as milliseconds since the epoch. -/
structure RegistryMeta where
  timeCreatedMs : Nat
deriving DecidableEq

/-- The not-found finding of network.ts lines 85-95: severity low for scoped
names (leading `@`), critical for unscoped names. -/
def notFoundFinding (pkgName : String) : Finding :=
  baseFinding "Reputation" (some pkgName) "package.json" none
    (if jsStartsWith pkgName "@" then "low" else "critical") none
    (if jsStartsWith pkgName "@" then
      "Scoped package not found in public registry (Likely Private)."
     else "Unscoped package not found in registry (Possible Malware/Typosquat).")

/-- The "brand new package" finding of network.ts lines 54-62;
`roundedAgeDays` is `Math.round(ageDays)`. -/
def brandNewFinding (pkgName : String) (roundedAgeDays : Nat) : Finding :=
  baseFinding "Reputation" (some pkgName) "package.json" none "high" none
    ("Package is brand new (created " ++ toString roundedAgeDays ++ " days ago).")

/-- The "extremely low downloads" finding of network.ts lines 69-77. -/
def lowDownloadsFinding (pkgName : String) (downloads : Nat) : Finding :=
  baseFinding "Reputation" (some pkgName) "package.json" none "medium" none
    ("Extremely low downloads (" ++ toString downloads
      ++ "/week). Potential typosquat or abandoned.")

/-- `1000 * 60 * 60 * 24` of network.ts line 52. -/
def msPerDay : Nat := 1000 * 60 * 60 * 24

/-- `checkReputation` of network.ts (lines 41-100), with the two network
fetches passed in as their outcomes. The float comparison `ageDays < 14` is
`now - created < 14 * msPerDay` over the integers, and `Math.round` of the
non-negative `ageDays` is `(now - created + msPerDay / 2) / msPerDay`
(a registry creation date in the future clamps to age 0 here; the JS code
then sees a negative age, and both flag the package as brand new). -/
def checkReputation (pkgName : String) (nowMs : Nat)
    (metaRes : FetchResult RegistryMeta) (dlRes : FetchResult Nat) : List Finding :=
  match metaRes with
  | .err responseStatus =>
      if responseStatus = some 404 then [notFoundFinding pkgName] else []
  | .ok meta =>
      (if nowMs - meta.timeCreatedMs < 14 * msPerDay then
        [brandNewFinding pkgName ((nowMs - meta.timeCreatedMs + msPerDay / 2) / msPerDay)]
       else [])
      ++ (match dlRes with
          | .ok downloads =>
              if downloads < 50 then [lowDownloadsFinding pkgName downloads] else []
          | .err _ => [])

/-- C5: when the registry metadata lookup returns a not-found (404) response,
`checkReputation` returns exactly one Reputation finding, whose severity is
low when the package name is scoped (begins with `@`) and critical when it is
unscoped; for every other kind of failure of that lookup it returns no
finding at all. -/
theorem claimC5 (pkgName : String) (nowMs : Nat) (st : Option Nat)
    (dlRes : FetchResult Nat) (hst : st ≠ some 404) :
    checkReputation pkgName nowMs (.err (some 404)) dlRes = [notFoundFinding pkgName]
    ∧ (notFoundFinding pkgName).type = "Reputation"
    ∧ (notFoundFinding pkgName).severity
        = (if jsStartsWith pkgName "@" then "low" else "critical")
    ∧ checkReputation pkgName nowMs (.err st) dlRes = [] := by
  refine ⟨rfl, rfl, rfl, ?_⟩
  show (if st = some 404 then [notFoundFinding pkgName] else []) = []
  rw [if_neg hst]

/-- C5 witness: a concrete unscoped 404 yields one critical finding, a scoped
name's finding is low-severity, and a response-less failure yields nothing. -/
theorem claimC5_witness :
    checkReputation "lefftpad" 0 (.err (some 404)) (.err none) = [notFoundFinding "lefftpad"]
    ∧ (notFoundFinding "lefftpad").severity = "critical"
    ∧ checkReputation "@acme/internal" 0 (.err none) (.err none) = []
    ∧ (notFoundFinding "@acme/internal").severity = "low" := by
  refine ⟨(claimC5 "lefftpad" 0 none (.err none) (by simp)).1, by decide,
    (claimC5 "@acme/internal" 0 none (.err none) (by simp)).2.2.2, by decide⟩

/- ============ OSV advisory model (C1, C8, C9) ============ -/

/-- One entry of an OSV advisory's `severity` array (`{type, score}` pairs);
the code only tests the array's length (network.ts line 177). -/
structure OsvSeverityEntry where
  type : String
  score : String
deriving DecidableEq

/-- One entry of a `range.events` array; `introduced` and `fixed` are both
optional in OSV, and only `fixed` is read (network.ts line 162). -/
structure OsvEvent where
  introduced : Option String
  fixed : Option String
deriving DecidableEq

/-- One entry of an `affected.ranges` array. -/
structure OsvRange where
  events : List OsvEvent
deriving DecidableEq

/-- One entry of an advisory's `affected` array. -/
structure OsvAffected where
  ranges : List OsvRange
deriving DecidableEq

/-- The `database_specific` object, of which only `severity` is read
(network.ts line 175). -/
structure OsvDatabaseSpecific where
  severity : Option String
deriving DecidableEq

/-- The fields of an OSV advisory record that `checkVulnerabilitiesBatch`
reads (network.ts lines 152-213), plus the free-text fields (`summary`,
`details`) that feed the serialized-text severity scan. The source handles
the advisory as untyped JSON; absent optional fields are `undefined` in JS
(falsy, and omitted by `JSON.stringify`). An absent array and an empty array
behave identically in every probe the code performs (`length > 0` tests and
`for..of` loops), so arrays are plain lists here. -/
structure OsvAdvisory where
  id : String
  summary : Option String
  details : Option String
  severity : List OsvSeverityEntry
  database_specific : Option OsvDatabaseSpecific
  affected : List OsvAffected
  aliases : List String
deriving DecidableEq

/-- A JSON string literal (escaping elided: no advisory field in scope below
contains characters needing escapes, and both severity derivations compared
by C1 scan this same serialization). -/
def jstr (s : String) : String := "\"" ++ s ++ "\""

/-- One serialized JSON object field. -/
def jfield (k v : String) : String := jstr k ++ ":" ++ v

/-- Serialized `events` entry. -/
def serializeEvent (e : OsvEvent) : String :=
  "\x7b" ++ String.intercalate ","
    ((e.introduced.map (fun s => jfield "introduced" (jstr s))).toList
      ++ (e.fixed.map (fun s => jfield "fixed" (jstr s))).toList) ++ "\x7d"

/-- Serialized `ranges` entry. -/
def serializeRange (r : OsvRange) : String :=
  "\x7b" ++ jfield "events"
    ("[" ++ String.intercalate "," (r.events.map serializeEvent) ++ "]") ++ "\x7d"

/-- Serialized `affected` entry. -/
def serializeAffected (a : OsvAffected) : String :=
  "\x7b" ++ jfield "ranges"
    ("[" ++ String.intercalate "," (a.ranges.map serializeRange) ++ "]") ++ "\x7d"

/-- Serialized `severity` entry. -/
def serializeSeverityEntry (e : OsvSeverityEntry) : String :=
  "\x7b" ++ jfield "type" (jstr e.type) ++ "," ++ jfield "score" (jstr e.score) ++ "\x7d"

/-- Serialized `database_specific` object. -/
def serializeDatabaseSpecific (d : OsvDatabaseSpecific) : String :=
  "\x7b" ++ String.intercalate ","
    ((d.severity.map (fun s => jfield "severity" (jstr s))).toList) ++ "\x7d"

/-- `JSON.stringify(v)` over the modelled advisory fields (network.ts line
180); `undefined` fields are omitted, as `JSON.stringify` omits them. -/
def serializeAdvisory (v : OsvAdvisory) : String :=
  "\x7b" ++ String.intercalate ","
    ([jfield "id" (jstr v.id)]
      ++ (v.summary.map (fun s => jfield "summary" (jstr s))).toList
      ++ (v.details.map (fun s => jfield "details" (jstr s))).toList
      ++ [jfield "severity"
            ("[" ++ String.intercalate "," (v.severity.map serializeSeverityEntry) ++ "]")]
      ++ (v.database_specific.map
            (fun d => jfield "database_specific" (serializeDatabaseSpecific d))).toList
      ++ [jfield "affected"
            ("[" ++ String.intercalate "," (v.affected.map serializeAffected) ++ "]")]
      ++ [jfield "aliases" ("[" ++ String.intercalate "," (v.aliases.map jstr) ++ "]")])
    ++ "\x7d"

/-- The truthiness probe `v.database_specific && v.database_specific.severity`
of network.ts line 175 (an empty string is falsy in JS). -/
def dbSeverityOf (v : OsvAdvisory) : Option String :=
  match v.database_specific with
  | some ds =>
      match ds.severity with
      | some s => if s = "" then none else some s
      | none => none
  | none => none

/-- The keyword fallback scan of network.ts lines 180-184: first match among
`critical`, `high`, `medium` in the lower-cased serialized advisory, else
`low`. -/
def serializedScanSeverity (text : String) : String :=
  if strIncludes text "critical" then "critical"
  else if strIncludes text "high" then "high"
  else if strIncludes text "medium" then "medium"
  else "low"

/-- The severity derivation of network.ts lines 174-185: prefer the
lower-cased `database_specific.severity`; otherwise `high` whenever the
advisory's own `severity` array is non-empty; otherwise the keyword scan of
the serialized advisory. -/
def severityOf (v : OsvAdvisory) : String :=
  match dbSeverityOf v with
  | some s => jsToLower s
  | none =>
      if 0 < v.severity.length then "high"
      else serializedScanSeverity (jsToLower (serializeAdvisory v))

/-- The severity derivation exactly as claim C1 words it: the
database-supplied severity when present, otherwise the first of the keywords
`critical`, `high`, `medium` occurring in the serialized advisory text,
defaulting to `low` — with no special case for a non-empty `severity` array. -/
def claimC1Severity (v : OsvAdvisory) : String :=
  match dbSeverityOf v with
  | some s => jsToLower s
  | none =>
      match ["critical", "high", "medium"].find?
          (fun kw => strIncludes (jsToLower (serializeAdvisory v)) kw) with
      | some kw => kw
      | none => "low"

/-- The derivation with the claim's omission repaired: an advisory carrying a
non-empty `severity` array (but no database-supplied severity) is always
rated `high`; only advisories with neither fall back to the keyword scan. -/
def amendedC1Severity (v : OsvAdvisory) : String :=
  match dbSeverityOf v with
  | some s => jsToLower s
  | none =>
      if 0 < v.severity.length then "high"
      else
        match ["critical", "high", "medium"].find?
            (fun kw => strIncludes (jsToLower (serializeAdvisory v)) kw) with
        | some kw => kw
        | none => "low"

/-- An advisory with a non-empty `severity` array, no database severity, and
the word "critical" in its details. -/
def advSevArray : OsvAdvisory :=
  ⟨"GHSA-aaaa-bbbb-cccc", none, some "A critical overflow in the parser",
    [⟨"CVSS_V3", "CVSS:3.1/AV:N"⟩], none, [], []⟩

/-- C1 counterexample: for an advisory whose `severity` array is non-empty
and whose text contains "critical", the code rates `high` (network.ts line
178) while the claim's database-else-scan derivation rates `critical` — the
claim omits the middle branch. -/
theorem claimC1_counterexample :
    severityOf advSevArray = "high"
    ∧ claimC1Severity advSevArray = "critical"
    ∧ severityOf advSevArray ≠ claimC1Severity advSevArray := by
  refine ⟨by decide, by decide, by decide⟩

theorem serializedScan_eq_find (text : String) :
    serializedScanSeverity text
      = (match ["critical", "high", "medium"].find? (fun kw => strIncludes text kw) with
         | some kw => kw
         | none => "low") := by
  by_cases h1 : strIncludes text "critical" = true
  · simp [serializedScanSeverity, List.find?, h1]
  · by_cases h2 : strIncludes text "high" = true
    · simp [serializedScanSeverity, List.find?, h1, h2]
    · by_cases h3 : strIncludes text "medium" = true
      · simp [serializedScanSeverity, List.find?, h1, h2, h3]
      · simp [serializedScanSeverity, List.find?, h1, h2, h3]

/-- C1 amended: severity of a matched advisory is the database-supplied
severity (lower-cased) when present; else `high` when the advisory's own
`severity` array is non-empty; else the first keyword among critical, high,
medium found in the serialized advisory text, defaulting to low. -/
theorem claimC1_amended (v : OsvAdvisory) : severityOf v = amendedC1Severity v := by
  unfold severityOf amendedC1Severity
  cases dbSeverityOf v with
  | some s => rfl
  | none =>
      by_cases hl : 0 < v.severity.length
      · rw [if_pos hl, if_pos hl]
      · rw [if_neg hl, if_neg hl, serializedScan_eq_find]

/- ===================== C9 : fixed-in version ====================== -/

/-- One update step of the fixed-in accumulator (network.ts line 163):
replace the accumulator when it is still the `Unknown` sentinel or when the
candidate is greater under JS string comparison. -/
def fixedStep (acc f : String) : String :=
  if acc == "Unknown" || jsLt acc f then f else acc

/-- The truthiness probe `if (event.fixed)` of network.ts line 162: an
absent or empty-string `fixed` field is skipped. -/
def eventFixedVal (ev : OsvEvent) : Option String :=
  match ev.fixed with
  | some f => if f = "" then none else some f
  | none => none

/-- The triple loop of network.ts lines 155-172 computing the reported
fixed-in version, starting from the sentinel `"Unknown"`. -/
def fixedInOf (v : OsvAdvisory) : String :=
  v.affected.foldl (fun acc aff =>
    aff.ranges.foldl (fun acc2 rng =>
      rng.events.foldl (fun acc3 ev =>
        match eventFixedVal ev with
        | some f => fixedStep acc3 f
        | none => acc3) acc2) acc) "Unknown"

/-- All truthy `fixed` event versions of an advisory, in traversal order. -/
def fixedVersionsOf (v : OsvAdvisory) : List String :=
  v.affected.flatMap (fun aff =>
    aff.ranges.flatMap (fun rng => rng.events.filterMap eventFixedVal))

/-- The claim's reading of the result: the lexicographically greatest (JS
string order) fixed version, or `"Unknown"` when there is none. -/
def lexMaxFixedIn (vs : List String) : String :=
  match vs with
  | [] => "Unknown"
  | h :: t => t.foldl (fun a b => if jsLt a b then b else a) h

theorem foldl_flatMap_general {α β γ : Type} (l : List α) (g : α → List β)
    (f : γ → β → γ) (a : γ) :
    (l.flatMap g).foldl f a = l.foldl (fun acc x => (g x).foldl f acc) a := by
  induction l generalizing a with
  | nil => rfl
  | cons x xs ih => simp [List.flatMap_cons, List.foldl_append, ih]

theorem foldl_fun_congr {α β : Type} (l : List β) (f g : α → β → α) (a : α)
    (h : ∀ a x, f a x = g a x) : l.foldl f a = l.foldl g a := by
  induction l generalizing a with
  | nil => rfl
  | cons x xs ih => rw [List.foldl_cons, List.foldl_cons, h, ih]

theorem foldl_eventFixed (evs : List OsvEvent) (a : String) :
    evs.foldl (fun acc ev => match eventFixedVal ev with
      | some f => fixedStep acc f
      | none => acc) a
    = (evs.filterMap eventFixedVal).foldl fixedStep a := by
  induction evs generalizing a with
  | nil => rfl
  | cons ev rest ih =>
      cases h : eventFixedVal ev with
      | none => simp [List.filterMap_cons, h, List.foldl_cons, ih]
      | some f => simp [List.filterMap_cons, h, List.foldl_cons, ih]

theorem fixedInOf_eq_foldl (v : OsvAdvisory) :
    fixedInOf v = (fixedVersionsOf v).foldl fixedStep "Unknown" := by
  unfold fixedInOf fixedVersionsOf
  rw [foldl_flatMap_general]
  apply foldl_fun_congr
  intro acc aff
  rw [foldl_flatMap_general]
  apply foldl_fun_congr
  intro acc2 rng
  rw [foldl_eventFixed]

theorem foldl_fixedStep_max (vs : List String) :
    ∀ a, a ≠ "Unknown" → (∀ x ∈ vs, x ≠ "Unknown") →
      vs.foldl fixedStep a = vs.foldl (fun a b => if jsLt a b then b else a) a := by
  induction vs with
  | nil => intro a _ _; rfl
  | cons x rest ih =>
      intro a ha hall
      rw [List.foldl_cons, List.foldl_cons]
      have hstep : fixedStep a x = if jsLt a x then x else a := by
        unfold fixedStep
        have hne : (a == "Unknown") = false := by
          simp [ha]
        rw [hne, Bool.false_or]
      rw [hstep]
      apply ih
      · by_cases hj : jsLt a x = true
        · rw [if_pos hj]; exact hall x (List.mem_cons_self _ _)
        · rw [if_neg hj]; exact ha
      · intro y hy; exact hall y (List.mem_cons_of_mem _ hy)

/-- C9 amended: so long as no `fixed` event version is the literal string
`"Unknown"` (the sentinel the code reuses), the reported fixed-in version is
the greatest of all fixed event versions under plain JS string comparison,
and `"Unknown"` when there is no fixed event. Without that proviso the claim
fails: a literal `"Unknown"` fixed version makes the accumulator restart
(see the counterexample). -/
theorem claimC9_amended (v : OsvAdvisory)
    (hno : "Unknown" ∉ fixedVersionsOf v) :
    fixedInOf v = lexMaxFixedIn (fixedVersionsOf v) := by
  rw [fixedInOf_eq_foldl]
  cases hvs : fixedVersionsOf v with
  | nil => rfl
  | cons h t =>
      rw [hvs] at hno
      unfold lexMaxFixedIn
      rw [List.foldl_cons]
      have hstep : fixedStep "Unknown" h = h := by
        unfold fixedStep
        rw [show ("Unknown" == "Unknown") = true from rfl, Bool.true_or, if_pos rfl]
      rw [hstep]
      apply foldl_fixedStep_max
      · exact fun hh => hno (hh ▸ List.mem_cons_self _ _)
      · intro x hx hh
        exact hno (hh ▸ List.mem_cons_of_mem _ hx)

/-- An advisory whose `fixed` events are `"Unknown"` then `"1.0.0"`. -/
def advUnknownFixed : OsvAdvisory :=
  ⟨"GHSA-dddd-eeee-ffff", none, none, [], none,
    [⟨[⟨[⟨none, some "Unknown"⟩, ⟨none, some "1.0.0"⟩]⟩]⟩], []⟩

/-- C9 counterexample: with fixed event versions `["Unknown", "1.0.0"]` the
code reports `"1.0.0"` (a literal `"Unknown"` fixed version is
indistinguishable from the sentinel, so the next candidate always replaces
it), while the lexicographic maximum of the fixed versions is `"Unknown"`
(`U` sorts above `1`) — the claim as stated is false on this advisory. -/
theorem claimC9_counterexample :
    fixedInOf advUnknownFixed = "1.0.0"
    ∧ lexMaxFixedIn (fixedVersionsOf advUnknownFixed) = "Unknown"
    ∧ fixedInOf advUnknownFixed ≠ lexMaxFixedIn (fixedVersionsOf advUnknownFixed) := by
  refine ⟨by decide, by decide, by decide⟩

/-- An advisory with fixed versions `"10.0.0"` and `"9.0.0"`. -/
def advNineTen : OsvAdvisory :=
  ⟨"GHSA-gggg-hhhh-iiii", none, none, [], none,
    [⟨[⟨[⟨none, some "10.0.0"⟩, ⟨none, some "9.0.0"⟩]⟩]⟩], []⟩

/-- C9 witness: on an advisory with fixed versions 10.0.0 and 9.0.0 the
amended theorem applies (no literal "Unknown" among them) and the reported
fix version is "9.0.0" — plain string comparison, not semver. -/
theorem claimC9_amended_witness :
    fixedInOf advNineTen = lexMaxFixedIn (fixedVersionsOf advNineTen)
    ∧ fixedInOf advNineTen = "9.0.0" :=
  ⟨claimC9_amended advNineTen (by decide), by decide⟩

/- ===================== C8 : severity enum ====================== -/

/-- An advisory whose database-supplied severity is `MODERATE` (a value the
OSV/GitHub databases do emit, and which cli.ts line 62 explicitly orders). -/
def advModerate : OsvAdvisory :=
  ⟨"GHSA-jjjj-kkkk-llll", none, none, [], some ⟨some "MODERATE"⟩, [], []⟩

/-- C8 counterexample: a Vulnerability finding's severity taken from the
advisory database record is the lower-cased database string verbatim
(network.ts line 176); for `MODERATE` that is `moderate`, which is not one
of the four enum values — the claim fails precisely on the database-supplied
case it singles out. -/
theorem claimC8_counterexample :
    severityOf advModerate = "moderate" ∧ "moderate" ∉ severityEnumVals := by
  refine ⟨by decide, by decide⟩

theorem serializedScan_mem_enum (text : String) :
    serializedScanSeverity text ∈ severityEnumVals := by
  unfold serializedScanSeverity
  by_cases h1 : strIncludes text "critical" = true
  · rw [if_pos h1]; decide
  · rw [if_neg h1]
    by_cases h2 : strIncludes text "high" = true
    · rw [if_pos h2]; decide
    · rw [if_neg h2]
      by_cases h3 : strIncludes text "medium" = true
      · rw [if_pos h3]; decide
      · rw [if_neg h3]; decide

theorem checkTyposquatting_severity (depNames : List String) :
    ∀ f ∈ checkTyposquatting depNames, f.severity ∈ severityEnumVals := by
  intro f hf
  obtain ⟨dn, _, hin⟩ := List.mem_flatMap.mp hf
  obtain ⟨p, _, hhit⟩ := List.mem_filterMap.mp hin
  unfold typoHit at hhit
  by_cases e : dn = p
  · rw [if_pos e] at hhit; exact absurd hhit (by simp)
  · rw [if_neg e] at hhit
    by_cases l : levenshteinGet dn p ≤ typoThreshold p
    · rw [if_pos l] at hhit
      have hfe : f = typoFinding dn p := (Option.some.inj hhit).symm
      subst hfe
      exact (by decide : ("high" : String) ∈ severityEnumVals)
    · rw [if_neg l] at hhit; exact absurd hhit (by simp)

theorem checkReputation_severity (pkgName : String) (nowMs : Nat)
    (metaRes : FetchResult RegistryMeta) (dlRes : FetchResult Nat) :
    ∀ f ∈ checkReputation pkgName nowMs metaRes dlRes, f.severity ∈ severityEnumVals := by
  intro f hf
  cases metaRes with
  | err st =>
      have hf' : f ∈ (if st = some 404 then [notFoundFinding pkgName] else []) := hf
      by_cases h : st = some 404
      · rw [if_pos h, List.mem_singleton] at hf'
        subst hf'
        show (if jsStartsWith pkgName "@" then "low" else "critical") ∈ severityEnumVals
        by_cases hs : jsStartsWith pkgName "@" = true
        · rw [if_pos hs]; decide
        · rw [if_neg hs]; decide
      · rw [if_neg h] at hf'; exact absurd hf' (by simp)
  | ok meta =>
      cases dlRes with
      | ok downloads =>
          have hf' : f ∈ ((if nowMs - meta.timeCreatedMs < 14 * msPerDay then
                [brandNewFinding pkgName ((nowMs - meta.timeCreatedMs + msPerDay / 2) / msPerDay)]
              else [])
              ++ (if downloads < 50 then [lowDownloadsFinding pkgName downloads] else [])) := hf
          rcases List.mem_append.mp hf' with h1 | h2
          · by_cases ha : nowMs - meta.timeCreatedMs < 14 * msPerDay
            · rw [if_pos ha, List.mem_singleton] at h1
              subst h1
              exact (by decide : ("high" : String) ∈ severityEnumVals)
            · rw [if_neg ha] at h1; exact absurd h1 (by simp)
          · by_cases hd : downloads < 50
            · rw [if_pos hd, List.mem_singleton] at h2
              subst h2
              exact (by decide : ("medium" : String) ∈ severityEnumVals)
            · rw [if_neg hd] at h2; exact absurd h2 (by simp)
      | err st2 =>
          have hf' : f ∈ ((if nowMs - meta.timeCreatedMs < 14 * msPerDay then
                [brandNewFinding pkgName ((nowMs - meta.timeCreatedMs + msPerDay / 2) / msPerDay)]
              else [])
              ++ ([] : List Finding)) := hf
          rcases List.mem_append.mp hf' with h1 | h2
          · by_cases ha : nowMs - meta.timeCreatedMs < 14 * msPerDay
            · rw [if_pos ha, List.mem_singleton] at h1
              subst h1
              exact (by decide : ("high" : String) ∈ severityEnumVals)
            · rw [if_neg ha] at h1; exact absurd h1 (by simp)
          · exact absurd h2 (by simp)

theorem analyzeContent_severity (ast : List Finding) (obf : Bool) (content file : String)
    (hAst : ∀ f ∈ ast, f.severity ∈ severityEnumVals) :
    ∀ f ∈ analyzeContent ast obf content file, f.severity ∈ severityEnumVals := by
  intro f hf
  unfold analyzeContent at hf
  by_cases hj : jsEndsWith file ".json" = true
  · rw [hj] at hf; simp at hf
  · rw [show jsEndsWith file ".json" = false from by
      cases h : jsEndsWith file ".json" with
      | true => exact absurd h hj
      | false => rfl] at hf
    simp only [Bool.false_eq_true, if_false, Bool.not_false, Bool.true_and] at hf
    by_cases hbig : 1024 * 1024 < content.length
    · rw [if_pos hbig] at hf
      cases hll : hasLongLines content with
      | some v =>
          rw [hll] at hf
          obtain ⟨li, len⟩ := v
          rw [List.mem_singleton] at hf
          subst hf
          exact (by decide : ("high" : String) ∈ severityEnumVals)
      | none => rw [hll] at hf; exact absurd hf (by simp)
    · rw [if_neg hbig] at hf
      rcases List.mem_append.mp hf with h1 | h2
      · rcases List.mem_append.mp h1 with h3 | h4
        · exact hAst f h3
        · cases hll : hasLongLines content with
          | some v =>
              rw [hll] at h4
              obtain ⟨li, len⟩ := v
              rw [List.mem_singleton] at h4
              subst h4
              exact (by decide : ("high" : String) ∈ severityEnumVals)
          | none => rw [hll] at h4; exact absurd h4 (by simp)
      · by_cases ho : obf = true
        · rw [if_pos ho, List.mem_singleton] at h2
          subst h2
          exact (by decide : ("medium" : String) ∈ severityEnumVals)
        · rw [if_neg ho] at h2; exact absurd h2 (by simp)

/-- C8 amended: every finding of the local analyzers (content patterns,
typosquatting, reputation) carries a severity from the four-value enum, and
so does every Vulnerability finding whose severity is *not* database-supplied
(the non-empty-`severity`-array rating and the keyword fallback only produce
enum values); but a database-supplied severity is passed through verbatim
(lower-cased) and may lie outside the enum, e.g. `moderate`. -/
theorem claimC8_amended (v w : OsvAdvisory) (depNames : List String)
    (pkgName : String) (nowMs : Nat) (metaRes : FetchResult RegistryMeta)
    (dlRes : FetchResult Nat) (ast : List Finding) (obf : Bool)
    (content file : String) (s : String)
    (hv : dbSeverityOf v = none) (hw : dbSeverityOf w = some s) :
    severityOf v ∈ severityEnumVals
    ∧ severityOf w = jsToLower s
    ∧ (∀ f ∈ checkTyposquatting depNames, f.severity ∈ severityEnumVals)
    ∧ (∀ f ∈ checkReputation pkgName nowMs metaRes dlRes, f.severity ∈ severityEnumVals)
    ∧ ((∀ f ∈ ast, f.severity ∈ severityEnumVals) →
        ∀ f ∈ analyzeContent ast obf content file, f.severity ∈ severityEnumVals) := by
  refine ⟨?_, ?_, checkTyposquatting_severity depNames,
    checkReputation_severity pkgName nowMs metaRes dlRes,
    fun h => analyzeContent_severity ast obf content file h⟩
  · unfold severityOf
    rw [hv]
    by_cases hl : 0 < v.severity.length
    · rw [if_pos hl]; decide
    · rw [if_neg hl]; exact serializedScan_mem_enum _
  · unfold severityOf
    rw [hw]

/-- C8 witness: the amended theorem applied at concrete inputs — an advisory
with no database severity and empty severity array rates inside the enum, a
`HIGH` database severity passes through as `high`, and concrete local
findings rate inside the enum. -/
theorem claimC8_amended_witness :
    severityOf ⟨"GHSA-a", none, none, [], none, [], []⟩ ∈ severityEnumVals
    ∧ severityOf ⟨"GHSA-b", none, none, [], some ⟨some "HIGH"⟩, [], []⟩ = jsToLower "HIGH"
    ∧ (∀ f ∈ checkTyposquatting ["vuee"], f.severity ∈ severityEnumVals)
    ∧ (∀ f ∈ checkReputation "lefftpad" 0 (.err (some 404)) (.err none),
        f.severity ∈ severityEnumVals)
    ∧ ((∀ f ∈ ([] : List Finding), f.severity ∈ severityEnumVals) →
        ∀ f ∈ analyzeContent [] false "x" "a.js", f.severity ∈ severityEnumVals) :=
  claimC8_amended ⟨"GHSA-a", none, none, [], none, [], []⟩
    ⟨"GHSA-b", none, none, [], some ⟨some "HIGH"⟩, [], []⟩
    ["vuee"] "lefftpad" 0 (.err (some 404)) (.err none) [] false "x" "a.js" "HIGH"
    (by decide) (by decide)

/- ===================== C3 : batch chunking ====================== -/

/-- Chunk construction of `checkVulnerabilitiesBatch` (network.ts lines
108-113): the index loop `for (i = 0; i < length; i += 500)` pushing
`packages.slice(i, i + 500)` yields `ceil(length / 500)` chunks, the k-th
being `drop (500 * k)` then `take 500`. -/
def chunksOf (packages : List Dependency) : List (List Dependency) :=
  (List.range ((packages.length + 499) / 500)).map
    (fun i => (packages.drop (500 * i)).take 500)

/-- `checkVulnerabilitiesBatch` of network.ts (lines 105-223) with the
per-chunk network interaction abstracted: `processChunk` maps a chunk to the
findings its batch query, detail fetches, and record assembly produce, or to
`none` when processing the chunk throws (the chunk-level `try`/`catch` of
lines 117-220 then contributes nothing for that chunk). The findings of the
processed chunks are concatenated in order. -/
def checkVulnerabilitiesBatch (processChunk : List Dependency → Option (List Finding))
    (packages : List Dependency) : List Finding :=
  if packages.length = 0 then []
  else ((chunksOf packages).map (fun c => (processChunk c).getD [])).flatten

theorem chunksOf_cons_of_ne (l : List Dependency) (h : l ≠ []) :
    chunksOf l = l.take 500 :: chunksOf (l.drop 500) := by
  have hlen : 0 < l.length := List.length_pos.mpr h
  have hn : (l.length + 499) / 500 = ((l.drop 500).length + 499) / 500 + 1 := by
    rw [List.length_drop]
    by_cases hle : l.length ≤ 500
    · have h1 : (l.length + 499) / 500 = 1 :=
        Nat.div_eq_of_lt_le (by omega) (by omega)
      have h2 : (l.length - 500 + 499) / 500 = 0 :=
        Nat.div_eq_of_lt (by omega)
      omega
    · have h3 : l.length + 499 = (l.length - 500 + 499) + 500 := by omega
      rw [h3, Nat.add_div_right _ (by norm_num)]
  unfold chunksOf
  rw [hn, List.range_succ_eq_map, List.map_cons, List.map_map]
  congr 1
  apply List.map_congr_left
  intro i _
  simp only [Function.comp]
  rw [List.drop_drop]
  congr 2
  omega

theorem chunksOf_flatten (n : Nat) : ∀ l : List Dependency, l.length ≤ n →
    (chunksOf l).flatten = l := by
  induction n with
  | zero =>
      intro l hl
      have h0 : l = [] := List.eq_nil_of_length_eq_zero (by omega)
      subst h0; rfl
  | succ k ih =>
      intro l hl
      by_cases h : l = []
      · subst h; rfl
      · have hlp : 0 < l.length := List.length_pos.mpr h
        have hdl : (l.drop 500).length ≤ k := by
          rw [List.length_drop]; omega
        rw [chunksOf_cons_of_ne l h, List.flatten_cons, ih (l.drop 500) hdl]
        exact List.take_append_drop _ _

theorem chunksOf_size (l : List Dependency) (c : List Dependency) (hc : c ∈ chunksOf l) :
    c.length ≤ 500 := by
  obtain ⟨i, _, rfl⟩ := List.mem_map.mp hc
  rw [List.length_take]
  omega

theorem chunksOf_1200 :
    (chunksOf (List.replicate 1200 ⟨"pkg", "1.0.0"⟩)).map List.length = [500, 500, 200] := by
  simp only [chunksOf, List.length_replicate]
  rw [show (1200 + 499) / 500 = 3 from by norm_num]
  rw [show List.range 3 = [0, 1, 2] from rfl]
  simp only [List.map_cons, List.map_nil, List.length_take, List.length_drop,
    List.length_replicate]
  norm_num

/-- C3: `checkVulnerabilitiesBatch` splits any dependency list into
consecutive chunks of at most 500 entries whose concatenation is the whole
list; a 1200-package list yields exactly 3 chunks of sizes 500, 500 and 200;
and whenever one chunk's processing fails, every successfully processed
chunk's findings still appear (as a sublist) in the returned result —
a chunk failure never discards other chunks' findings. -/
theorem claimC3 (packages : List Dependency)
    (processChunk : List Dependency → Option (List Finding)) :
    (∀ c ∈ chunksOf packages, c.length ≤ 500)
    ∧ (chunksOf packages).flatten = packages
    ∧ (chunksOf (List.replicate 1200 ⟨"pkg", "1.0.0"⟩)).map List.length = [500, 500, 200]
    ∧ (∀ c ∈ chunksOf packages, ∀ fs, processChunk c = some fs →
        fs.Sublist (checkVulnerabilitiesBatch processChunk packages)) := by
  refine ⟨fun c hc => chunksOf_size packages c hc,
    chunksOf_flatten packages.length packages le_rfl, chunksOf_1200, ?_⟩
  intro c hc fs hfs
  have hne : ¬ packages.length = 0 := by
    intro h0
    have hnil : packages = [] := List.eq_nil_of_length_eq_zero h0
    subst hnil
    exact absurd hc (by simp [chunksOf])
  unfold checkVulnerabilitiesBatch
  rw [if_neg hne]
  obtain ⟨s, t, hst⟩ := List.append_of_mem hc
  rw [hst, List.map_append, List.map_cons, List.flatten_append, List.flatten_cons, hfs]
  exact (List.sublist_append_left fs _).trans (List.sublist_append_right _ _)

/-- C3 witness: a 3-package list forms one chunk; with a processing function
that succeeds on it, its findings appear in the batch result. -/
theorem claimC3_witness :
    [baseFinding "Vulnerability" (some "p") "package-lock.json" none "high" none "d"].Sublist
      (checkVulnerabilitiesBatch
        (fun _ =>
          some [baseFinding "Vulnerability" (some "p") "package-lock.json" none "high" none "d"])
        [⟨"p", "1"⟩, ⟨"q", "2"⟩, ⟨"r", "3"⟩]) :=
  (claimC3 [⟨"p", "1"⟩, ⟨"q", "2"⟩, ⟨"r", "3"⟩] _).2.2.2
    [⟨"p", "1"⟩, ⟨"q", "2"⟩, ⟨"r", "3"⟩] (by decide) _ rfl

/- ===================== C2 : reputation gating ====================== -/

/-- Names submitted to `checkReputation` by `auditDependencies`
(network.ts lines 24-33): every package of the given list when the count is
below 200, none at all otherwise. This helper is not invoked by the scanner
pipeline — scanner.ts imports `checkReputation` and
`checkVulnerabilitiesBatch` directly. -/
def auditReputationTargets (packages : List Dependency) : List String :=
  if packages.length < 200 then packages.map (fun p => p.name) else []

/-- Names submitted to `checkReputation` by `scanDirectory`
(scanner.ts lines 111-136): whenever there are dependencies to scan, exactly
the directly declared names from package.json are reputation-checked, with
no ceiling of any kind on the dependency count. -/
def scannerReputationTargets (depsToScan : List Dependency)
    (directDepsNames : List String) : List String :=
  if 0 < depsToScan.length then directDepsNames else []

/-- C2 counterexample: in the scanner pipeline the reputation path is not
skipped at 200 or more dependencies — with a 200-entry lockfile list and one
declared dependency the reputation check still runs. (The below-200 ceiling
exists only in the `auditDependencies` helper, which the scanner never
calls.) -/
theorem claimC2_counterexample :
    ¬ (∀ (depsToScan : List Dependency) (directDepsNames : List String),
        200 ≤ depsToScan.length →
          scannerReputationTargets depsToScan directDepsNames = []) := by
  intro hclaim
  have h := hclaim (List.replicate 200 ⟨"p", "1.0.0"⟩) ["axios"]
    (by rw [List.length_replicate])
  rw [scannerReputationTargets,
    if_pos (by rw [List.length_replicate]; norm_num)] at h
  exact absurd h (by simp)

/-- C2 amended: the claim's two halves hold in two different functions. In
the scanner pipeline the reputation check runs only over the directly
declared dependency names (never the transitive lockfile entries) but with
no count ceiling; the below-200 ceiling exists only in the unused
`auditDependencies` helper, which skips reputation entirely at 200 or more
packages and otherwise submits every package of the list it is given. -/
theorem claimC2_amended (depsToScan pkgs : List Dependency)
    (directDepsNames : List String) :
    (∀ n ∈ scannerReputationTargets depsToScan directDepsNames, n ∈ directDepsNames)
    ∧ (200 ≤ pkgs.length → auditReputationTargets pkgs = [])
    ∧ (pkgs.length < 200 → auditReputationTargets pkgs = pkgs.map (fun p => p.name)) := by
  refine ⟨?_, ?_, ?_⟩
  · intro n hn
    unfold scannerReputationTargets at hn
    by_cases h : 0 < depsToScan.length
    · rwa [if_pos h] at hn
    · rw [if_neg h] at hn; exact absurd hn (by simp)
  · intro h; unfold auditReputationTargets; rw [if_neg (by omega)]
  · intro h; unfold auditReputationTargets; rw [if_pos h]

/-- C2 witness: at exactly 200 packages `auditDependencies` submits nobody to
the reputation check, while a 1-package list submits its name. -/
theorem claimC2_amended_witness :
    auditReputationTargets (List.replicate 200 ⟨"p", "1.0.0"⟩) = []
    ∧ auditReputationTargets [⟨"p", "1.0.0"⟩] = ["p"] := by
  refine ⟨(claimC2_amended [] (List.replicate 200 ⟨"p", "1.0.0"⟩) []).2.1
      (by rw [List.length_replicate]), ?_⟩
  have h := (claimC2_amended [] [⟨"p", "1.0.0"⟩] []).2.2 (by simp)
  rw [h]
  rfl

/- ===================== C10 : concurrency pool ====================== -/

/-- The kinds of outbound network calls an audit makes (network.ts). -/
inductive OutboundKind where
  | registryMetadata
  | weeklyDownloads
  | vulnBatchQuery
  | advisoryDetail
deriving DecidableEq

/-- An outbound call site of network.ts: its kind, source line, and whether
the `axios` call happens inside a task submitted to the shared `pLimit(10)`
pool (`limit`, network.ts line 6). -/
structure OutboundCallSite where
  kind : OutboundKind
  sourceLine : Nat
  throughLimit : Bool
deriving DecidableEq

/-- The four outbound call sites: the registry metadata and weekly-download
lookups both run inside the single `limit(...)` task wrapping the body of
`checkReputation` (lines 42-99); each advisory detail fetch is wrapped in
`limit(...)` (lines 136-143); but the `axios.post` batch query of line 126
is issued directly in the chunk loop, outside the pool. -/
def networkCallSites : List OutboundCallSite :=
  [⟨.registryMetadata, 46, true⟩, ⟨.weeklyDownloads, 67, true⟩,
   ⟨.vulnBatchQuery, 126, false⟩, ⟨.advisoryDetail, 139, true⟩]

/-- Abstract state of one audit's outbound traffic: pooled tasks currently
running (each holding at most one in-flight call), pooled tasks queued, and
whether the chunk loop's unpooled batch query is in flight. -/
structure AuditNetState where
  poolActive : Nat
  poolPending : Nat
  batchActive : Nat
deriving DecidableEq

/-- Transition relation: `submit` queues a pooled task; `poolStart` runs a
queued task only while fewer than 10 are active (the pLimit cap);
`poolFinish` retires one; `batchStart` issues the unpooled batch query of
network.ts line 126 — gated only by the chunk loop's sequentiality (one
batch query at a time, since each is awaited), not by the pool — and
`batchFinish` completes it. -/
inductive AuditStep : AuditNetState → AuditNetState → Prop where
  | submit (s : AuditNetState) :
      AuditStep s ⟨s.poolActive, s.poolPending + 1, s.batchActive⟩
  | poolStart (s : AuditNetState) (hp : 0 < s.poolPending) (hc : s.poolActive < 10) :
      AuditStep s ⟨s.poolActive + 1, s.poolPending - 1, s.batchActive⟩
  | poolFinish (s : AuditNetState) (ha : 0 < s.poolActive) :
      AuditStep s ⟨s.poolActive - 1, s.poolPending, s.batchActive⟩
  | batchStart (s : AuditNetState) (hb : s.batchActive = 0) :
      AuditStep s ⟨s.poolActive, s.poolPending, 1⟩
  | batchFinish (s : AuditNetState) :
      AuditStep s ⟨s.poolActive, s.poolPending, 0⟩

/-- States reachable from the idle state by audit activity. -/
def AuditReachable (s : AuditNetState) : Prop :=
  Relation.ReflTransGen AuditStep ⟨0, 0, 0⟩ s

/-- Number of simultaneously in-flight outbound requests. -/
def inFlight (s : AuditNetState) : Nat := s.poolActive + s.batchActive

theorem audit_submits (n : Nat) : AuditReachable ⟨0, n, 0⟩ := by
  induction n with
  | zero => exact Relation.ReflTransGen.refl
  | succ k ih => exact Relation.ReflTransGen.tail ih (AuditStep.submit ⟨0, k, 0⟩)

theorem audit_starts : ∀ n, n ≤ 10 → AuditReachable ⟨n, 10 - n, 0⟩ := by
  intro n
  induction n with
  | zero => intro _; exact audit_submits 10
  | succ k ih =>
      intro hn
      exact Relation.ReflTransGen.tail (ih (by omega))
        (AuditStep.poolStart ⟨k, 10 - k, 0⟩ (show 0 < 10 - k by omega)
          (show k < 10 by omega))

/-- C10 counterexample: the vulnerability batch query does not pass through
the shared pool (network.ts line 126 is outside `limit`), and a reachable
audit state has 10 pooled calls plus the batch query in flight — 11
simultaneous outbound requests, exceeding the cap of 10 the claim asserts. -/
theorem claimC10_counterexample :
    AuditReachable ⟨10, 0, 1⟩ ∧ 10 < inFlight ⟨10, 0, 1⟩
    ∧ networkCallSites.all (fun c => c.throughLimit) = false := by
  refine ⟨?_, by decide, by decide⟩
  have h10 : AuditReachable ⟨10, 0, 0⟩ := audit_starts 10 le_rfl
  exact Relation.ReflTransGen.tail h10 (AuditStep.batchStart ⟨10, 0, 0⟩ rfl)

theorem audit_invariant (s : AuditNetState)
    (h : Relation.ReflTransGen AuditStep ⟨0, 0, 0⟩ s) :
    s.poolActive ≤ 10 ∧ s.batchActive ≤ 1 := by
  induction h with
  | refl => exact ⟨by norm_num, by norm_num⟩
  | tail hr step ih =>
      cases step with
      | submit => dsimp only; omega
      | poolStart hp hc => dsimp only; omega
      | poolFinish ha => dsimp only; omega
      | batchStart hb => dsimp only; omega
      | batchFinish => dsimp only; omega

/-- C10 amended: the registry metadata, weekly-download, and advisory detail
fetches do pass through the shared `pLimit(10)` pool, and in every reachable
audit state at most 10 pooled calls are in flight; but the vulnerability
batch query is issued outside the pool (sequentially, one at a time), so the
hard bound on simultaneous outbound requests is 11, not 10. -/
theorem claimC10_amended (s : AuditNetState) (h : AuditReachable s) :
    s.poolActive ≤ 10 ∧ s.batchActive ≤ 1 ∧ inFlight s ≤ 11
    ∧ (∀ c ∈ networkCallSites, c.kind ≠ OutboundKind.vulnBatchQuery →
        c.throughLimit = true) := by
  have hmain := audit_invariant s h
  refine ⟨hmain.1, hmain.2, ?_, by decide⟩
  unfold inFlight
  omega

/-- C10 witness: the amended theorem at the idle state (reachable by refl). -/
theorem claimC10_amended_witness :
    (⟨0, 0, 0⟩ : AuditNetState).poolActive ≤ 10
    ∧ (⟨0, 0, 0⟩ : AuditNetState).batchActive ≤ 1
    ∧ inFlight ⟨0, 0, 0⟩ ≤ 11
    ∧ (∀ c ∈ networkCallSites, c.kind ≠ OutboundKind.vulnBatchQuery →
        c.throughLimit = true) :=
  claimC10_amended ⟨0, 0, 0⟩ Relation.ReflTransGen.refl
